import Mathlib

/-!
Verification of the license-compliance checker (src/main.py) against its
specification. The program shells out to `pip freeze` and `pip show`, parses
their plain-text output into a mapping from package name to a record of
string fields, and renders the mapping as text or JSON.

Modeling conventions:
- Python strings are modeled as `List Char` (named `Str`), so that every
  operation is structurally recursive and kernel-computable.
- Python dicts (which preserve insertion order and keep the position of a
  key when an existing key is reassigned) are modeled as association lists
  with the `insertD` update operation mirroring dict assignment.
- The two external commands are modeled as oracles returning
  `Except Unit Str`: `Except.ok stdout` for a zero exit status and
  `Except.error ()` for a `subprocess.CalledProcessError`.
- `sys.exit(1)` and an exception escaping to the top-level handler in
  `main` are both modeled as the checker run returning `Except.error 1`.
-/

deriving instance DecidableEq for Except

/-- Python strings, modeled as lists of characters. -/
abbrev Str := List Char

/-- A Dependency Record: the per-package dict of string fields
(`version`, `license`, `homepage`), in insertion order. -/
abbrev PkgRecord := List (Str × Str)

/-- The mapping `self.dependencies`: package name to record, in insertion
order. -/
abbrev DepMap := List (Str × PkgRecord)

/-- Assignment `d[k] = v` on a Python dict modeled as an association list:
if the key is present its value is replaced in place (the key keeps its
position), otherwise the pair is appended at the end. -/
def insertD {α : Type} (k : Str) (v : α) : List (Str × α) → List (Str × α)
  | [] => [(k, v)]
  | p :: rest => if p.1 = k then (k, v) :: rest else p :: insertD k v rest

/-- Lookup `d.get(k)` on a Python dict modeled as an association list. -/
def lookupA {α : Type} (k : Str) : List (Str × α) → Option α
  | [] => none
  | p :: rest => if p.1 = k then some p.2 else lookupA k rest

/-- Python `d.get(k, default)` for string fields. -/
def pyGetD (rec : PkgRecord) (k : Str) (d : Str) : Str :=
  (lookupA k rec).getD d

/-- Python `str.strip()`: drop whitespace from both ends. -/
def pyStrip (s : Str) : Str :=
  ((s.dropWhile Char.isWhitespace).reverse.dropWhile Char.isWhitespace).reverse

/-- Python `str.lower()`. -/
def pyLower (s : Str) : Str := s.map Char.toLower

/-- Helper for `pySplitlines`: split on newline characters, accumulating the
current line in reverse. -/
def splitLinesAux : Str → Str → List Str
  | [], acc => [acc.reverse]
  | c :: rest, acc =>
    if c = '\n' then acc.reverse :: splitLinesAux rest []
    else splitLinesAux rest (c :: acc)

/-- Python `str.splitlines()` (with `text=True` subprocess output, line
breaks are normalized to a newline character): split on newlines, with no
empty trailing entry for a trailing newline and `[]` for the empty string. -/
def pySplitlines (s : Str) : List Str :=
  let parts := splitLinesAux s []
  if parts.getLast? = some [] then parts.dropLast else parts

/-- Prepend a character to the first part of a split result. -/
def consHead (c : Char) : List Str → List Str
  | [] => [[c]]
  | h :: t => (c :: h) :: t

/-- Python `line.split('==')`: split on every non-overlapping occurrence of
the two-character separator, scanning left to right. -/
def splitEqEq : Str → List Str
  | [] => [[]]
  | '=' :: '=' :: rest => [] :: splitEqEq rest
  | c :: rest => consHead c (splitEqEq rest)

/-- Python `line.split(':', 1)` as a pair: the part before the first colon,
and `some` of the part after it (or `none` when the line has no colon, where
indexing `[1]` in Python would fail; in this program the part after the
colon is only taken on lines whose matched prefix already contains a
colon). -/
def breakColon : Str → Str × Option Str
  | [] => ([], none)
  | c :: rest =>
    if c = ':' then ([], some rest)
    else
      let p := breakColon rest
      (c :: p.1, p.2)

/-- Python `line.split(':', 1)[1]`. -/
def afterFirstColon (line : Str) : Str := ((breakColon line).2).getD []

/-- Test `line.lower().startswith('license:')`. -/
def isLicenseLine (line : Str) : Bool :=
  List.isPrefixOf ("license:".data) (pyLower line)

/-- Test `line.lower().startswith('home-page:')`. -/
def isHomepageLine (line : Str) : Bool :=
  List.isPrefixOf ("home-page:".data) (pyLower line)

/-- The field key `"version"`. -/
def verKey : Str := "version".data

/-- The field key `"license"`. -/
def licKey : Str := "license".data

/-- The field key `"homepage"`. -/
def homeKey : Str := "homepage".data

/-- The sentinel value `"UNKNOWN"`. -/
def unknownVal : Str := "UNKNOWN".data

/-- The message of the `ValueError` raised by `name, version = line.split('==')`
when the split does not yield exactly two parts. -/
def valueErrMsg : Str := "ValueError: too many values to unpack (expected 2)".data

/-- One iteration step of the `pip freeze` parsing loop in
`_get_dependencies` (src/main.py lines 55-58): a line is considered only if
it contains `==` (equivalently, splitting on `==` yields at least two
parts); the tuple unpacking `package_name, package_version = line.split('==')`
succeeds only when the split yields exactly two parts, and otherwise raises
a `ValueError` that the enumerator does not catch. -/
def addFreezeLine (deps : DepMap) (line : Str) : Except Str DepMap :=
  match splitEqEq line with
  | [_] => Except.ok deps
  | [n, v] => Except.ok (insertD n [(verKey, v)] deps)
  | _ => Except.error valueErrMsg

/-- The `pip freeze` parsing loop of `_get_dependencies`, starting from a
given mapping: lines are processed in order, and a raised `ValueError`
aborts the loop. -/
def depsOfLines (deps : DepMap) : List Str → Except Str DepMap
  | [] => Except.ok deps
  | line :: rest =>
    match addFreezeLine deps line with
    | Except.ok d => depsOfLines d rest
    | Except.error e => Except.error e

/-- `_get_dependencies` given the raw stdout of `pip freeze`
(`_execute_command` strips the output before it is split into lines). -/
def getDependencies (stdout : Str) : Except Str DepMap :=
  depsOfLines [] (pySplitlines (pyStrip stdout))

/-- The metadata parsing loop of `_get_license_info` (src/main.py lines
73-81): scan the lines of `pip show` output with `license_info`
initialized to `"UNKNOWN"`; the first line whose lowercased form starts
with `license:` sets the license value and breaks the loop; a line whose
lowercased form starts with `home-page:` stores the homepage into the
record and scanning continues; after the loop (or the break) the license
value is assigned into the record, hence after any homepage insertion. -/
def scanMeta : List Str → PkgRecord → PkgRecord
  | [], rec => insertD licKey unknownVal rec
  | line :: rest, rec =>
    if isLicenseLine line then
      insertD licKey (pyStrip (afterFirstColon line)) rec
    else if isHomepageLine line then
      scanMeta rest (insertD homeKey (pyStrip (afterFirstColon line)) rec)
    else
      scanMeta rest rec

/-- `_get_license_info` for one package: on command success parse the
stripped stdout; on `CalledProcessError` (or any unexpected error) only
`license = "UNKNOWN"` is assigned. -/
def getLicenseInfo (pipShow : Str → Except Unit Str) (name : Str)
    (rec : PkgRecord) : PkgRecord :=
  match pipShow name with
  | Except.ok out => scanMeta (pySplitlines (pyStrip out)) rec
  | Except.error _ => insertD licKey unknownVal rec

/-- The resolution loop of `scan_licenses`: update every record in the
mapping, in order, by its `pip show` result. -/
def scanLicenses (pipShow : Str → Except Unit Str) (deps : DepMap) : DepMap :=
  deps.map (fun p => (p.1, getLicenseInfo pipShow p.1 p.2))

/-- JSON string escaping as performed by `json.dumps` on the characters
that can appear in this report (quote, backslash and ASCII control
characters used here). -/
def escChar (c : Char) : Str :=
  if c = '"' then ['\\', '"']
  else if c = '\\' then ['\\', '\\']
  else if c = '\n' then ['\\', 'n']
  else if c = '\t' then ['\\', 't']
  else if c = '\r' then ['\\', 'r']
  else [c]

/-- Escape every character of a string for JSON output. -/
def jsonEscape (s : Str) : Str := s.foldr (fun c acc => escChar c ++ acc) []

/-- A JSON string literal. -/
def jsonStr (s : Str) : Str := '"' :: jsonEscape s ++ ['"']

/-- Render one key-value pair of an inner record at depth two
(8-space indentation). -/
def jsonField (p : Str × Str) : Str :=
  "        ".data ++ jsonStr p.1 ++ ": ".data ++ jsonStr p.2

/-- Intercalate a separator between rendered items. -/
def joinSep (sep : Str) : List Str → Str
  | [] => []
  | [x] => x
  | x :: rest => x ++ sep ++ joinSep sep rest

/-- Render one Dependency Record as a JSON object, as `json.dumps` with
`indent=4` does for a value nested at depth one. -/
def jsonInner (rec : PkgRecord) : Str :=
  match rec with
  | [] => "\x7b\x7d".data
  | _ => "\x7b\n".data ++ joinSep ",\n".data (rec.map jsonField)
      ++ "\n    \x7d".data

/-- Render one package entry of the top-level JSON object
(4-space indentation). -/
def jsonEntry (p : Str × PkgRecord) : Str :=
  "    ".data ++ jsonStr p.1 ++ ": ".data ++ jsonInner p.2

/-- `json.dumps(self.dependencies, indent=4)` for a mapping of records of
strings: keys in insertion order, 4-space indentation, `": "` between key
and value and `",\n"` between entries. -/
def jsonDumps (deps : DepMap) : Str :=
  match deps with
  | [] => "\x7b\x7d".data
  | _ => "\x7b\n".data ++ joinSep ",\n".data (deps.map jsonEntry) ++ "\n\x7d".data

/-- The text block emitted for one package by `generate_report` (src/main.py
lines 110-113): name header plus the labeled `Version`, `License` and
`Homepage` lines, each field read with `info.get(key, 'UNKNOWN')`. -/
def renderBlock (name : Str) (rec : PkgRecord) : Str :=
  "\nPackage: ".data ++ name
    ++ "\n  Version: ".data ++ pyGetD rec verKey unknownVal
    ++ "\n  License: ".data ++ pyGetD rec licKey unknownVal
    ++ "\n  Homepage: ".data ++ pyGetD rec homeKey unknownVal
    ++ "\n".data

/-- The text-report accumulation loop of `generate_report`. -/
def renderText : DepMap → Str
  | [] => []
  | p :: rest => renderBlock p.1 p.2 ++ renderText rest

/-- `generate_report`: JSON when the output format is `"json"`, otherwise
the text report starting with its header line. -/
def generateReport (fmt : Str) (deps : DepMap) : Str :=
  if fmt = "json".data then jsonDumps deps
  else "License Compliance Report:\n".data ++ renderText deps

/-- The checker run after argument validation, as orchestrated by
`scan_licenses`, `generate_report` and the handlers in `_get_dependencies`
and `main`: a failing `pip freeze` causes `sys.exit(1)`; a `ValueError`
escaping `_get_dependencies` reaches the top-level handler in `main`,
which exits with status 1; otherwise the report string is produced. -/
def runChecker (pipFreeze : Except Unit Str) (pipShow : Str → Except Unit Str)
    (fmt : Str) : Except Nat Str :=
  match pipFreeze with
  | Except.error _ => Except.error 1
  | Except.ok out =>
    match getDependencies out with
    | Except.error _ => Except.error 1
    | Except.ok deps => Except.ok (generateReport fmt (scanLicenses pipShow deps))

/-! Lemmas about the association-list dict operations. -/

/-- Looking up the key just assigned yields the assigned value. -/
theorem lookupA_insertD_self {α : Type} (k : Str) (v : α) (l : List (Str × α)) :
    lookupA k (insertD k v l) = some v := by
  induction l with
  | nil => simp [insertD, lookupA]
  | cons p rest ih =>
    by_cases h : p.1 = k
    · simp [insertD, h, lookupA]
    · simp [insertD, h, lookupA, ih]

/-- Assigning one key leaves the lookup of a different key unchanged. -/
theorem lookupA_insertD_ne {α : Type} (k k' : Str) (h : k ≠ k') (v : α)
    (l : List (Str × α)) : lookupA k' (insertD k v l) = lookupA k' l := by
  induction l with
  | nil => simp [insertD, lookupA, h]
  | cons p rest ih =>
    by_cases hp : p.1 = k
    · subst hp
      simp [insertD, lookupA, h]
    · simp [insertD, hp, lookupA, ih]

/-- Assigning an existing key does not change the key sequence. -/
theorem keys_insertD_mem {α : Type} (k : Str) (v : α) (l : List (Str × α))
    (h : k ∈ l.map Prod.fst) :
    (insertD k v l).map Prod.fst = l.map Prod.fst := by
  induction l with
  | nil => simp at h
  | cons p rest ih =>
    by_cases hp : p.1 = k
    · simp [insertD, hp]
    · have hk : k ∈ rest.map Prod.fst := by
        simp only [List.map_cons, List.mem_cons] at h
        rcases h with h | h
        · exact absurd h.symm hp
        · exact h
      simp [insertD, hp, ih hk]

/-- Assigning a fresh key appends it at the end of the key sequence. -/
theorem keys_insertD_not_mem {α : Type} (k : Str) (v : α) (l : List (Str × α))
    (h : k ∉ l.map Prod.fst) :
    (insertD k v l).map Prod.fst = l.map Prod.fst ++ [k] := by
  induction l with
  | nil => simp [insertD]
  | cons p rest ih =>
    simp only [List.map_cons, List.mem_cons] at h
    push_neg at h
    obtain ⟨h1, h2⟩ := h
    have hp : p.1 ≠ k := Ne.symm h1
    simp [insertD, hp, ih h2]

/-- Dict assignment preserves distinctness of the keys. -/
theorem nodup_keys_insertD {α : Type} (k : Str) (v : α) (l : List (Str × α))
    (h : (l.map Prod.fst).Nodup) :
    ((insertD k v l).map Prod.fst).Nodup := by
  by_cases hm : k ∈ l.map Prod.fst
  · rw [keys_insertD_mem k v l hm]
    exact h
  · rw [keys_insertD_not_mem k v l hm]
    simp [List.nodup_append, h, hm]

/-- A successful lookup means the key occurs in the key sequence. -/
theorem lookupA_some_mem {α : Type} (k : Str) (l : List (Str × α)) (r : α)
    (h : lookupA k l = some r) : k ∈ l.map Prod.fst := by
  induction l with
  | nil => simp [lookupA] at h
  | cons p rest ih =>
    by_cases hp : p.1 = k
    · simp only [List.map_cons, List.mem_cons]
      exact Or.inl hp.symm
    · simp only [lookupA, hp, if_false] at h
      simp only [List.map_cons, List.mem_cons]
      exact Or.inr (ih h)

/-! Theorems settling the claims about metadata parsing. -/

/-- C2: for every package whose metadata output has a license line on an
earlier line than every home-page line, the scan never stores a homepage:
the homepage field of the record is exactly what it was before the scan
(absent when it started absent), because scanning stops at the first
license line. -/
theorem c2_license_first_homepage_absent (pre post : List Str) (lin : Str)
    (rec : PkgRecord) (hlic : isLicenseLine lin = true)
    (hpre : ∀ l ∈ pre, isHomepageLine l = false) :
    lookupA homeKey (scanMeta (pre ++ lin :: post) rec) = lookupA homeKey rec := by
  induction pre generalizing rec with
  | nil =>
    simp only [List.nil_append, scanMeta, hlic, if_true]
    exact lookupA_insertD_ne licKey homeKey (by decide) _ rec
  | cons l pre ih =>
    by_cases h1 : isLicenseLine l
    · simp only [List.cons_append, scanMeta, h1, if_true]
      exact lookupA_insertD_ne licKey homeKey (by decide) _ rec
    · have h2 : isHomepageLine l = false := hpre l (by simp)
      simp only [List.cons_append, scanMeta, h1, h2, if_false, Bool.false_eq_true]
      exact ih rec (fun x hx => hpre x (by simp [hx]))

/-- Witness for C2 at a concrete metadata output where the license line
precedes the home-page line. -/
theorem c2_license_first_homepage_absent_witness :
    lookupA homeKey
      (scanMeta (["Name: x".data] ++ "License: MIT".data :: ["Home-page: http://a".data])
        [(verKey, "1.0".data)]) =
      lookupA homeKey [(verKey, "1.0".data)] :=
  c2_license_first_homepage_absent ["Name: x".data] ["Home-page: http://a".data]
    "License: MIT".data [(verKey, "1.0".data)] (by decide) (by decide)

/-- C4: the first line whose lowercased form starts with license: determines
the recorded license, which equals the text after the first colon of that
line with surrounding whitespace stripped; all later lines (in particular
later license lines) have no effect on the recorded license. -/
theorem c4_first_license_wins (pre post : List Str) (lin : Str) (rec : PkgRecord)
    (hpre : ∀ l ∈ pre, isLicenseLine l = false)
    (hlic : isLicenseLine lin = true) :
    lookupA licKey (scanMeta (pre ++ lin :: post) rec) =
      some (pyStrip (afterFirstColon lin)) := by
  induction pre generalizing rec with
  | nil =>
    simp only [List.nil_append, scanMeta, hlic, if_true]
    exact lookupA_insertD_self licKey _ rec
  | cons l pre ih =>
    have h1 : isLicenseLine l = false := hpre l (by simp)
    by_cases h2 : isHomepageLine l
    · simp only [List.cons_append, scanMeta, h1, h2, if_true, if_false,
        Bool.false_eq_true]
      exact ih _ (fun x hx => hpre x (by simp [hx]))
    · simp only [List.cons_append, scanMeta, h1, h2, if_false,
        Bool.false_eq_true]
      exact ih rec (fun x hx => hpre x (by simp [hx]))

/-- Witness for C4: two license lines, the first one wins. -/
theorem c4_first_license_wins_witness :
    lookupA licKey
      (scanMeta (["Name: x".data] ++ "License:  MIT ".data :: ["License: GPL".data]) []) =
      some (pyStrip (afterFirstColon "License:  MIT ".data)) :=
  c4_first_license_wins ["Name: x".data] ["License: GPL".data]
    "License:  MIT ".data [] (by decide) (by decide)

/-- C5: when no line of the metadata output starts (case-insensitively)
with license:, the recorded license is exactly UNKNOWN. -/
theorem c5_no_license_unknown (lines : List Str) (rec : PkgRecord)
    (h : ∀ l ∈ lines, isLicenseLine l = false) :
    lookupA licKey (scanMeta lines rec) = some unknownVal := by
  induction lines generalizing rec with
  | nil =>
    simp only [scanMeta]
    exact lookupA_insertD_self licKey _ rec
  | cons l rest ih =>
    have h1 : isLicenseLine l = false := h l (by simp)
    by_cases h2 : isHomepageLine l
    · simp only [scanMeta, h1, h2, if_true, if_false, Bool.false_eq_true]
      exact ih _ (fun x hx => h x (by simp [hx]))
    · simp only [scanMeta, h1, h2, if_false, Bool.false_eq_true]
      exact ih rec (fun x hx => h x (by simp [hx]))

/-- Witness for C5 at a concrete metadata output without a license line. -/
theorem c5_no_license_unknown_witness :
    lookupA licKey
      (scanMeta ["Name: x".data, "Home-page: http://a".data] [(verKey, "1".data)]) =
      some unknownVal :=
  c5_no_license_unknown ["Name: x".data, "Home-page: http://a".data]
    [(verKey, "1".data)] (by decide)

/-- The resolution of one package depends on the metadata oracle only
through the result for that one package name. -/
theorem getLicenseInfo_congr (s1 s2 : Str → Except Unit Str) (n : Str)
    (rec : PkgRecord) (h : s1 n = s2 n) :
    getLicenseInfo s1 n rec = getLicenseInfo s2 n rec := by
  simp [getLicenseInfo, h]

/-- C6: when the metadata command for package P fails, the license recorded
for every entry of P in the scanned mapping is exactly UNKNOWN; every other
package resolves to the same record it would have with any oracle agreeing
outside P (so the failure of P affects no other package); and the scan
still visits every package (the key sequence of the mapping is unchanged),
instead of aborting the run. -/
theorem c6_failure_contained (s1 s2 : Str → Except Unit Str) (deps : DepMap)
    (P : Str) (hfail : s1 P = Except.error ())
    (hagree : ∀ n, n ≠ P → s1 n = s2 n) :
    (∀ rec, (P, rec) ∈ scanLicenses s1 deps → lookupA licKey rec = some unknownVal)
    ∧ (∀ n, n ≠ P → lookupA n (scanLicenses s1 deps) = lookupA n (scanLicenses s2 deps))
    ∧ (scanLicenses s1 deps).map Prod.fst = deps.map Prod.fst := by
  refine ⟨?_, ?_, ?_⟩
  · intro rec hmem
    rcases List.mem_map.mp hmem with ⟨p, hp, heq⟩
    have h1 : p.1 = P := congrArg Prod.fst heq
    have h2 : getLicenseInfo s1 p.1 p.2 = rec := congrArg Prod.snd heq
    rw [h1] at h2
    rw [← h2]
    simp only [getLicenseInfo, hfail]
    exact lookupA_insertD_self licKey unknownVal p.2
  · intro n hn
    induction deps with
    | nil => simp [scanLicenses]
    | cons p rest ih =>
      simp only [scanLicenses, List.map_cons, lookupA]
      by_cases hp : p.1 = n
      · subst hp
        rw [getLicenseInfo_congr s1 s2 p.1 p.2 (hagree p.1 hn)]
        simp
      · simp only [if_neg hp]
        exact ih
  · simp [scanLicenses]

/-- Witness for C6: one failing package next to one succeeding package. -/
theorem c6_failure_contained_witness :
    (∀ rec, ("beta".data, rec) ∈
        scanLicenses
          (fun n => if n = "beta".data then Except.error ()
            else Except.ok "License: MIT".data)
          [("alpha".data, [(verKey, "1.0".data)]), ("beta".data, [(verKey, "2.3".data)])] →
      lookupA licKey rec = some unknownVal)
    ∧ (∀ n, n ≠ "beta".data →
        lookupA n
          (scanLicenses
            (fun n => if n = "beta".data then Except.error ()
              else Except.ok "License: MIT".data)
            [("alpha".data, [(verKey, "1.0".data)]), ("beta".data, [(verKey, "2.3".data)])]) =
        lookupA n
          (scanLicenses (fun _ => Except.ok "License: MIT".data)
            [("alpha".data, [(verKey, "1.0".data)]), ("beta".data, [(verKey, "2.3".data)])]))
    ∧ (scanLicenses
        (fun n => if n = "beta".data then Except.error ()
          else Except.ok "License: MIT".data)
        [("alpha".data, [(verKey, "1.0".data)]), ("beta".data, [(verKey, "2.3".data)])]).map
          Prod.fst =
      [("alpha".data, [(verKey, "1.0".data)]), ("beta".data, [(verKey, "2.3".data)])].map
        Prod.fst :=
  c6_failure_contained
    (fun n => if n = "beta".data then Except.error () else Except.ok "License: MIT".data)
    (fun _ => Except.ok "License: MIT".data)
    [("alpha".data, [(verKey, "1.0".data)]), ("beta".data, [(verKey, "2.3".data)])]
    ("beta".data) (by decide) (fun n hn => by simp [hn])

/-- Key-order invariant of the metadata scan: starting from a record whose
keys are `version` (or `version, homepage`), the scan can only append
`homepage` during the loop and always assigns `license` last, so the final
key sequence is `version, license` or `version, homepage, license`. -/
theorem scanMeta_keys (lines : List Str) (rec : PkgRecord)
    (h : rec.map Prod.fst = [verKey] ∨ rec.map Prod.fst = [verKey, homeKey]) :
    (scanMeta lines rec).map Prod.fst = [verKey, licKey]
    ∨ (scanMeta lines rec).map Prod.fst = [verKey, homeKey, licKey] := by
  induction lines generalizing rec with
  | nil =>
    simp only [scanMeta]
    rcases h with h | h
    · left
      rw [keys_insertD_not_mem licKey unknownVal rec (by rw [h]; decide), h]
      decide
    · right
      rw [keys_insertD_not_mem licKey unknownVal rec (by rw [h]; decide), h]
      decide
  | cons l rest ih =>
    by_cases h1 : isLicenseLine l
    · simp only [scanMeta, h1, if_true]
      rcases h with h | h
      · left
        rw [keys_insertD_not_mem licKey _ rec (by rw [h]; decide), h]
        decide
      · right
        rw [keys_insertD_not_mem licKey _ rec (by rw [h]; decide), h]
        decide
    · by_cases h2 : isHomepageLine l
      · simp only [scanMeta, h1, h2, if_true, if_false, Bool.false_eq_true]
        apply ih
        rcases h with h | h
        · right
          rw [keys_insertD_not_mem homeKey _ rec (by rw [h]; decide), h]
          decide
        · right
          rw [keys_insertD_mem homeKey _ rec (by rw [h]; decide), h]
      · simp only [scanMeta, h1, h2, if_false, Bool.false_eq_true]
        exact ih rec h

/-- C7 (amended): in JSON output mode every record of the serialized report
lists its fields in insertion order, which is `version`, then `homepage`
when a homepage was recorded, then `license`; the package entry is rendered
with 4-space indentation (`jsonEntry`) and its fields with 8-space
indentation (`jsonField`). The spec claim placed `license` before
`homepage`, but the code assigns `homepage` during the scan loop and
`license` only after it, so a present homepage precedes the license. -/
theorem c7_field_order (s : Str → Except Unit Str) (n v : Str) :
    ∃ rec, scanLicenses s [(n, [(verKey, v)])] = [(n, rec)]
      ∧ (rec.map Prod.fst = [verKey, licKey]
          ∨ rec.map Prod.fst = [verKey, homeKey, licKey])
      ∧ generateReport "json".data (scanLicenses s [(n, [(verKey, v)])]) =
          "\x7b\n".data ++ jsonEntry (n, rec) ++ "\n\x7d".data := by
  refine ⟨getLicenseInfo s n [(verKey, v)], by simp [scanLicenses], ?_, ?_⟩
  · cases hs : s n with
    | ok out =>
      have hg : getLicenseInfo s n [(verKey, v)] =
          scanMeta (pySplitlines (pyStrip out)) [(verKey, v)] := by
        simp [getLicenseInfo, hs]
      rw [hg]
      exact scanMeta_keys _ _ (Or.inl (by simp))
    | error e =>
      have hg : getLicenseInfo s n [(verKey, v)] =
          insertD licKey unknownVal [(verKey, v)] := by
        simp [getLicenseInfo, hs]
      rw [hg]
      left
      rw [keys_insertD_not_mem licKey unknownVal [(verKey, v)] (by simp; decide)]
      simp
  · simp [scanLicenses, generateReport, jsonDumps, joinSep]

/-- The oracle of the C7 counterexample: metadata output with the home-page
line before the license line, so that both fields are recorded. -/
def c7Show : Str → Except Unit Str := fun _ =>
  Except.ok "Home-page: http://x\nLicense: MIT\n".data

/-- C7 (counterexample): for enumeration output `a==1` and metadata output
`Home-page: http://x` then `License: MIT`, the serialized JSON report lists
the fields as `version`, `homepage`, `license`, and not as the claimed
`version`, `license`, `homepage`. -/
theorem c7_json_order_counterexample :
    (getDependencies "a==1".data).map
        (fun m => generateReport "json".data (scanLicenses c7Show m)) =
      Except.ok ("\x7b\n    \"a\": \x7b\n        \"version\": \"1\",\n        \"homepage\": \"http://x\",\n        \"license\": \"MIT\"\n    \x7d\n\x7d".data)
    ∧ (getDependencies "a==1".data).map
        (fun m => generateReport "json".data (scanLicenses c7Show m)) ≠
      Except.ok ("\x7b\n    \"a\": \x7b\n        \"version\": \"1\",\n        \"license\": \"MIT\",\n        \"homepage\": \"http://x\"\n    \x7d\n\x7d".data) := by
  constructor <;> decide

/-- The text report distributes over list concatenation. -/
theorem renderText_append (l1 l2 : DepMap) :
    renderText (l1 ++ l2) = renderText l1 ++ renderText l2 := by
  induction l1 with
  | nil => simp [renderText]
  | cons p rest ih => simp [renderText, ih]

/-- C8: in text output mode, for every package in the mapping the rendered
report contains the block made of the package name header line and the
labeled Version, License and Homepage lines, where each field is displayed
via `info.get(key, UNKNOWN)`; in particular a field absent from the record
is displayed as UNKNOWN. -/
theorem c8_text_block (deps : DepMap) (n : Str) (rec : PkgRecord)
    (h : (n, rec) ∈ deps) :
    (∃ s1 s2, generateReport "text".data deps =
        s1 ++ ("\nPackage: ".data ++ n
          ++ "\n  Version: ".data ++ pyGetD rec verKey unknownVal
          ++ "\n  License: ".data ++ pyGetD rec licKey unknownVal
          ++ "\n  Homepage: ".data ++ pyGetD rec homeKey unknownVal
          ++ "\n".data) ++ s2)
    ∧ (lookupA verKey rec = none → pyGetD rec verKey unknownVal = unknownVal)
    ∧ (lookupA licKey rec = none → pyGetD rec licKey unknownVal = unknownVal)
    ∧ (lookupA homeKey rec = none → pyGetD rec homeKey unknownVal = unknownVal) := by
  refine ⟨?_, ?_, ?_, ?_⟩
  · obtain ⟨s, t, rfl⟩ := List.append_of_mem h
    refine ⟨"License Compliance Report:\n".data ++ renderText s, renderText t, ?_⟩
    rw [generateReport, if_neg (by decide)]
    rw [renderText_append]
    simp [renderText, renderBlock, List.append_assoc]
  · intro hv
    simp [pyGetD, hv]
  · intro hv
    simp [pyGetD, hv]
  · intro hv
    simp [pyGetD, hv]

/-- Witness for C8: a two-package mapping where the second record lacks the
homepage field, which is displayed as UNKNOWN. -/
theorem c8_text_block_witness :
    (∃ s1 s2, generateReport "text".data
        [("alpha".data, [(verKey, "1.0".data), (licKey, "MIT".data)]),
         ("beta".data, [(verKey, "2.3".data), (licKey, unknownVal)])] =
        s1 ++ ("\nPackage: ".data ++ "beta".data
          ++ "\n  Version: ".data
            ++ pyGetD [(verKey, "2.3".data), (licKey, unknownVal)] verKey unknownVal
          ++ "\n  License: ".data
            ++ pyGetD [(verKey, "2.3".data), (licKey, unknownVal)] licKey unknownVal
          ++ "\n  Homepage: ".data
            ++ pyGetD [(verKey, "2.3".data), (licKey, unknownVal)] homeKey unknownVal
          ++ "\n".data) ++ s2)
    ∧ (lookupA verKey [(verKey, "2.3".data), (licKey, unknownVal)] = none →
        pyGetD [(verKey, "2.3".data), (licKey, unknownVal)] verKey unknownVal = unknownVal)
    ∧ (lookupA licKey [(verKey, "2.3".data), (licKey, unknownVal)] = none →
        pyGetD [(verKey, "2.3".data), (licKey, unknownVal)] licKey unknownVal = unknownVal)
    ∧ (lookupA homeKey [(verKey, "2.3".data), (licKey, unknownVal)] = none →
        pyGetD [(verKey, "2.3".data), (licKey, unknownVal)] homeKey unknownVal = unknownVal) :=
  c8_text_block
    [("alpha".data, [(verKey, "1.0".data), (licKey, "MIT".data)]),
     ("beta".data, [(verKey, "2.3".data), (licKey, unknownVal)])]
    "beta".data [(verKey, "2.3".data), (licKey, unknownVal)] (by decide)

/-- The metadata oracle of the spec scenario of C1: metadata for alpha with
the license line first, and a failing metadata command for beta. -/
def c1Show : Str → Except Unit Str := fun n =>
  if n = "alpha".data then
    Except.ok "License: MIT\nHome-page: http://a.example\n".data
  else Except.error ()

/-- C1 (counterexample): in the scenario of the claim, the final mapping
records no homepage for alpha, because the license line precedes the
home-page line and the scan breaks at the license line; the claim asserted
homepage `http://a.example` for alpha. -/
theorem c1_scenario_no_homepage :
    (getDependencies "alpha==1.0\nbeta==2.3\n".data).map (scanLicenses c1Show) =
      Except.ok [("alpha".data, [(verKey, "1.0".data), (licKey, "MIT".data)]),
                 ("beta".data, [(verKey, "2.3".data), (licKey, unknownVal)])]
    ∧ lookupA homeKey [(verKey, "1.0".data), (licKey, "MIT".data)] = none := by
  constructor <;> decide

/-- C1 (amended): in the scenario of the claim, the final mapping holds
exactly alpha with version 1.0 and license MIT (and no homepage) and beta
with version 2.3 and license UNKNOWN (and no homepage), and the JSON report
serializes exactly these fields. -/
theorem c1_scenario_report :
    runChecker (Except.ok "alpha==1.0\nbeta==2.3\n".data) c1Show "json".data =
      Except.ok ("\x7b\n    \"alpha\": \x7b\n        \"version\": \"1.0\",\n        \"license\": \"MIT\"\n    \x7d,\n    \"beta\": \x7b\n        \"version\": \"2.3\",\n        \"license\": \"UNKNOWN\"\n    \x7d\n\x7d".data) := by
  decide

/-- C3 (counterexample): the line `a==1==2` contains the separator `==`,
yet no mapping entry is produced for it: the unpacking of the three-part
split raises a ValueError, so the enumeration returns an error rather than
a mapping. -/
theorem c3_double_sep_error :
    addFreezeLine [] "a==1==2".data = Except.error valueErrMsg
    ∧ getDependencies "a==1==2".data = Except.error valueErrMsg := by
  constructor <;> decide

/-- C3 (amended): for every line of the enumeration output, if splitting
the line on `==` yields exactly two parts, the mapping gains an entry keyed
by that exact name with that exact version; if the line lacks `==` (the
split yields one part), the line is silently ignored; and if the split
yields three or more parts, the tuple unpacking raises a ValueError instead
of producing an entry. -/
theorem c3_freeze_line_cases (deps : DepMap) (line : Str) :
    (∀ n v, splitEqEq line = [n, v] →
        addFreezeLine deps line = Except.ok (insertD n [(verKey, v)] deps)
        ∧ lookupA n (insertD n [(verKey, v)] deps) = some [(verKey, v)])
    ∧ ((splitEqEq line).length = 1 → addFreezeLine deps line = Except.ok deps)
    ∧ (3 ≤ (splitEqEq line).length →
        addFreezeLine deps line = Except.error valueErrMsg) := by
  refine ⟨?_, ?_, ?_⟩
  · intro n v hs
    exact ⟨by simp [addFreezeLine, hs], lookupA_insertD_self n _ deps⟩
  · intro hl
    obtain ⟨x, hx⟩ := List.length_eq_one.mp hl
    simp [addFreezeLine, hx]
  · intro hl
    rcases hs : splitEqEq line with _ | ⟨a, _ | ⟨b, _ | ⟨c, r⟩⟩⟩
    · rw [hs] at hl
      simp at hl
    · rw [hs] at hl
      simp at hl
    · rw [hs] at hl
      simp at hl
    · simp [addFreezeLine, hs]

/-- Witness for C3 (amended), discharging each of the three cases at a
concrete line: a well-formed line, a separator-free line, and a line with
two separators. -/
theorem c3_freeze_line_cases_witness :
    (addFreezeLine [] "a==1".data =
        Except.ok (insertD "a".data [(verKey, "1".data)] [])
      ∧ lookupA "a".data (insertD "a".data [(verKey, "1".data)] []) =
        some [(verKey, "1".data)])
    ∧ addFreezeLine [] "plain".data = Except.ok []
    ∧ addFreezeLine [] "a==1==2".data = Except.error valueErrMsg :=
  ⟨(c3_freeze_line_cases [] "a==1".data).1 "a".data "1".data (by decide),
   (c3_freeze_line_cases [] "plain".data).2.1 (by decide),
   (c3_freeze_line_cases [] "a==1==2".data).2.2 (by decide)⟩

/-- C9: the enumeration output line `a==1==2` has two occurrences of `==`;
its split does not unpack into a pair, the enumerator does not handle the
raised ValueError, and the whole run aborts with exit status 1 for every
metadata oracle and output format, instead of parsing or ignoring the
line. -/
theorem c9_multi_sep_aborts (s : Str → Except Unit Str) (fmt : Str) :
    getDependencies "a==1==2".data = Except.error valueErrMsg
    ∧ runChecker (Except.ok "a==1==2".data) s fmt = Except.error 1 := by
  have h : getDependencies "a==1==2".data = Except.error valueErrMsg := by decide
  exact ⟨h, by simp [runChecker, h]⟩

/-- Processing a concatenation of line lists processes the first list and,
if no error was raised, continues with the second from the resulting
mapping. -/
theorem depsOfLines_append (l1 l2 : List Str) (deps : DepMap) :
    depsOfLines deps (l1 ++ l2) =
      match depsOfLines deps l1 with
      | Except.ok d => depsOfLines d l2
      | Except.error e => Except.error e := by
  induction l1 generalizing deps with
  | nil => simp [depsOfLines]
  | cons line rest ih =>
    simp only [List.cons_append, depsOfLines]
    cases addFreezeLine deps line with
    | ok d => exact ih d
    | error e => rfl

/-- A successfully processed freeze line that does not split as
`name == something` leaves the lookup of that name unchanged. -/
theorem addFreezeLine_lookup_ne (deps : DepMap) (line n : Str) (d : DepMap)
    (hne : ∀ v, splitEqEq line ≠ [n, v])
    (h : addFreezeLine deps line = Except.ok d) :
    lookupA n d = lookupA n deps := by
  rcases hs : splitEqEq line with _ | ⟨a, _ | ⟨b, _ | ⟨c, r⟩⟩⟩
  · simp [addFreezeLine, hs] at h
  · simp [addFreezeLine, hs] at h
    subst h
    rfl
  · have hane : a ≠ n := by
      intro heq
      exact hne b (by rw [heq] at hs; exact hs)
    simp [addFreezeLine, hs] at h
    subst h
    exact lookupA_insertD_ne a n hane _ deps
  · simp [addFreezeLine, hs] at h

/-- A successful freeze-line step preserves distinctness of the mapping
keys. -/
theorem addFreezeLine_nodup (deps : DepMap) (line : Str) (d : DepMap)
    (h : addFreezeLine deps line = Except.ok d)
    (hn : (deps.map Prod.fst).Nodup) : (d.map Prod.fst).Nodup := by
  rcases hs : splitEqEq line with _ | ⟨a, _ | ⟨b, _ | ⟨c, r⟩⟩⟩
  · simp [addFreezeLine, hs] at h
  · simp [addFreezeLine, hs] at h
    subst h
    exact hn
  · simp [addFreezeLine, hs] at h
    subst h
    exact nodup_keys_insertD a _ deps hn
  · simp [addFreezeLine, hs] at h

/-- A successful enumeration loop preserves distinctness of the mapping
keys. -/
theorem depsOfLines_nodup (lines : List Str) (deps d : DepMap)
    (h : depsOfLines deps lines = Except.ok d)
    (hn : (deps.map Prod.fst).Nodup) : (d.map Prod.fst).Nodup := by
  induction lines generalizing deps with
  | nil =>
    simp [depsOfLines] at h
    subst h
    exact hn
  | cons line rest ih =>
    simp only [depsOfLines] at h
    cases haf : addFreezeLine deps line with
    | ok d1 =>
      rw [haf] at h
      exact ih d1 h (addFreezeLine_nodup deps line d1 haf hn)
    | error e =>
      rw [haf] at h
      simp at h

/-- A successfully processed run of lines none of which splits as
`name == something` leaves the lookup of that name unchanged. -/
theorem depsOfLines_not_mentioned (lines : List Str) (deps d : DepMap) (n : Str)
    (hne : ∀ l ∈ lines, ∀ v, splitEqEq l ≠ [n, v])
    (h : depsOfLines deps lines = Except.ok d) :
    lookupA n d = lookupA n deps := by
  induction lines generalizing deps with
  | nil =>
    simp [depsOfLines] at h
    subst h
    rfl
  | cons line rest ih =>
    simp only [depsOfLines] at h
    cases haf : addFreezeLine deps line with
    | ok d1 =>
      rw [haf] at h
      rw [ih d1 (fun l hl => hne l (by simp [hl])) h]
      exact addFreezeLine_lookup_ne deps line n d1 (hne line (by simp)) haf
    | error e =>
      rw [haf] at h
      simp at h

/-- A key sequence without duplicates that contains a name counts it
exactly once. -/
theorem count_keys_eq_one (l : List Str) (n : Str) (hn : l.Nodup)
    (hm : n ∈ l) : l.count n = 1 := by
  induction l with
  | nil => simp at hm
  | cons a l ih =>
    rw [List.count_cons]
    rcases List.mem_cons.mp hm with rfl | hmem
    · have ha : n ∉ l := (List.nodup_cons.mp hn).1
      simp [List.count_eq_zero.mpr ha]
    · have hne : a ≠ n := by
        rintro rfl
        exact (List.nodup_cons.mp hn).1 hmem
      simp [ih (List.nodup_cons.mp hn).2 hmem, hne]

/-- C10: when the same package name occurs on several qualifying
`name==version` lines of the enumeration output and the run produces a
mapping, that mapping holds exactly one entry for the name and its record
carries the version of the last such line: later lines overwrite earlier
ones. The hypotheses decompose the lines of the output so that the given
`name==version` line has no later line for the same name. -/
theorem c10_last_wins (stdout : Str) (m : DepMap) (n vlast : Str)
    (pre post : List Str) (line : Str)
    (hsplit : pySplitlines (pyStrip stdout) = pre ++ line :: post)
    (hline : splitEqEq line = [n, vlast])
    (hpost : ∀ l ∈ post, ∀ v, splitEqEq l ≠ [n, v])
    (hok : getDependencies stdout = Except.ok m) :
    lookupA n m = some [(verKey, vlast)]
    ∧ (m.map Prod.fst).count n = 1 := by
  have hok2 : depsOfLines [] (pre ++ line :: post) = Except.ok m := by
    rw [← hsplit]
    exact hok
  rw [depsOfLines_append pre (line :: post) []] at hok2
  cases hpre : depsOfLines [] pre with
  | error e =>
    rw [hpre] at hok2
    simp at hok2
  | ok d0 =>
    rw [hpre] at hok2
    have hok3 : depsOfLines d0 (line :: post) = Except.ok m := hok2
    have hstep : addFreezeLine d0 line =
        Except.ok (insertD n [(verKey, vlast)] d0) := by
      simp [addFreezeLine, hline]
    have hunfold : depsOfLines d0 (line :: post) =
        match addFreezeLine d0 line with
        | Except.ok d => depsOfLines d post
        | Except.error e => Except.error e := rfl
    rw [hunfold, hstep] at hok3
    have hok4 : depsOfLines (insertD n [(verKey, vlast)] d0) post =
        Except.ok m := hok3
    have hlook : lookupA n m = some [(verKey, vlast)] := by
      rw [depsOfLines_not_mentioned post _ m n hpost hok4]
      exact lookupA_insertD_self n _ d0
    refine ⟨hlook, ?_⟩
    have hnodup : (m.map Prod.fst).Nodup := by
      apply depsOfLines_nodup (pre ++ line :: post) [] m _ (by simp)
      rw [← hsplit]
      exact hok
    exact count_keys_eq_one _ n hnodup (lookupA_some_mem n m _ hlook)

/-- Witness for C10: the output `a==1` then `a==2` yields one entry for
`a`, with version 2. -/
theorem c10_last_wins_witness :
    lookupA "a".data [("a".data, [(verKey, "2".data)])] = some [(verKey, "2".data)]
    ∧ ([("a".data, [(verKey, "2".data)])].map Prod.fst).count "a".data = 1 :=
  c10_last_wins "a==1\na==2".data [("a".data, [(verKey, "2".data)])] "a".data
    "2".data ["a==1".data] [] "a==2".data (by decide) (by decide)
    (fun l hl => absurd hl (List.not_mem_nil l)) (by decide)
